import Mathlib

/-!
# Verification of `artellapipe/utils/worker.py`

This file gives a shallow embedding of the two background-worker classes of
`source/artellapipe/utils/worker.py` (`Worker` and `QtWorker`) and proves the
specified properties about them.

Modelling choices, faithful to the source:

* A Python callable handed to `queue_work` is modelled as a function
  `PyVal → ExecResult`: applied to its `params` it either returns a value
  (possibly `None`) or raises an exception carrying a message.
* `uuid.uuid4().hex` produces a fresh unique identifier on every call; it is
  modelled by a monotone counter `nextId`, which gives exactly the freshness
  and uniqueness the code relies on.
* `traceback.format_exc()` is modelled by an uninterpreted-but-definite
  function `format_exc` of the exception message.
* Each worker is a small-step state machine.  The worker thread's loop body is
  cut at the points where the Python code releases the queue mutex, giving the
  interleaving points at which the caller-thread operations (`queue_work`,
  `clear`, `stop`) can run: `Phase.idle` (top of the loop / waiting),
  `Phase.popped` (item dequeued, mutex released, callable not yet invoked),
  `Phase.executed` (callable returned or raised, event not yet emitted).
  Running the callable itself is one atomic transition — the code has no
  preemption, an executing callable always runs to completion.
* `Worker.run` additionally checks `isInterruptionRequested()`; nothing in the
  repository ever requests interruption, so it is modelled as always false.
* Emitting a Qt signal appends the event to the `events` trace; beginning the
  execution of a callable appends its id to the `execLog` trace.
-/

namespace ArtellaWorker

/-- The Python values the worker manipulates: `None`, a dict payload, or an
opaque non-dict value. -/
inductive PyVal where
  | none : PyVal
  | dict (entries : List (String × Nat)) : PyVal
  | val (n : Nat) : PyVal
deriving DecidableEq, Repr

/-- Outcome of invoking a Python callable on its params: a returned value or a
raised exception carrying `str(e)`. -/
inductive ExecResult where
  | ok (v : PyVal) : ExecResult
  | exn (msg : String) : ExecResult
deriving DecidableEq, Repr

/-- A work function, as passed to `queue_work`. -/
def Job : Type := PyVal → ExecResult

/-- Models Python's `traceback.format_exc()` for an exception whose message is
`msg`: some definite diagnostic-trace string mentioning the exception. -/
def format_exc (msg : String) : String :=
  "Traceback (most recent call last): " ++ msg

/-- The dict `work = {'id': uid, 'fn': worker_fn, 'params': params}` built by
`queue_work`. -/
structure WorkItem where
  id : Nat
  fn : Job
  params : PyVal

/-- Caller-thread operations and one micro-step of the worker thread. -/
inductive Action where
  | queue_work (fn : Job) (params : PyVal) (asap : Bool) : Action
  | clear : Action
  | stop : Action
  | runStep : Action

/-- Schedule of `n` consecutive micro-steps of the worker thread, no caller activity. -/
def steps (n : Nat) : List Action :=
  List.replicate n Action.runStep

/-- A batch of `queue_work` calls, one per (callable, params, asap) triple. -/
def enqueues (es : List (Job × PyVal × Bool)) : List Action :=
  es.map (fun e => Action.queue_work e.1 e.2.1 e.2.2)

namespace Worker

/-- Events emitted by `Worker`: `workCompleted = Signal(str, dict)` and
`workFailure = Signal(str, str, str)` (id, message, trace). -/
inductive Event where
  | workCompleted (id : Nat) (data : PyVal) : Event
  | workFailure (id : Nat) (msg : String) (trace : String) : Event
deriving DecidableEq

/-- The id an event is correlated with. -/
def Event.eid : Event → Nat
  | .workCompleted i _ => i
  | .workFailure i _ _ => i

/-- Control position of the worker thread inside `Worker.run`. -/
inductive Phase where
  | idle : Phase
  | popped (item : WorkItem) : Phase
  | executed (item : WorkItem) (res : ExecResult) : Phase
  | exited : Phase

/-- Full state of one `Worker` instance together with its observable traces. -/
structure State where
  executeTasks : Bool
  queue : List WorkItem
  phase : Phase
  nextId : Nat
  events : List Event
  execLog : List Nat

/-- The state right after `Worker.__init__`, with the thread at the top of
`run`. -/
def init : State :=
  { executeTasks := true, queue := [], phase := .idle, nextId := 0,
    events := [], execLog := [] }

/-- Models `Worker.queue_work(worker_fn, params, asap)`: builds the work dict with a
fresh uid, inserts it at index 0 if `asap` else appends it, and returns the
uid.  The source performs no state check: it succeeds unconditionally. -/
def queue_work (s : State) (fn : Job) (params : PyVal) (asap : Bool) :
    Nat × State :=
  let uid := s.nextId
  let work : WorkItem := ⟨uid, fn, params⟩
  (uid,
    { s with
      queue := if asap then work :: s.queue else s.queue ++ [work],
      nextId := s.nextId + 1 })

/-- Models `Worker.clear()`: `self._queue = list()` under the mutex. -/
def clear (s : State) : State :=
  { s with queue := [] }

/-- Models `Worker.stop(wait_for_completion)`: sets `_execute_tasks = False` under
the mutex and notifies the condition; with `wait_for_completion` the caller
then blocks until the thread has exited. -/
def stop (s : State) : State :=
  { s with executeTasks := false }

/-- One micro-step of the thread running `Worker.run`.

* `idle`: the `while self._execute_tasks` check; if false the loop exits.
  Otherwise, under the mutex: if the queue is empty, wait on the condition
  (no state change); else `item_to_process = self._queue.pop()`, which — this
  is Python's `list.pop()` — removes the LAST element of the list.
* `popped`: the `if not self._execute_tasks: break` check; if it fails, the
  callable is invoked on its params (execution begins, logged) and runs to
  completion.
* `executed`: the emit guarded by `if self._execute_tasks`: on an exception,
  `workFailure(id, 'An error ocurred: ' + str(e), traceback)`; on a normal
  return, `data = data if data is not None else dict()` then
  `workCompleted(id, data)`.  Then back to the top of the loop. -/
def runStep (s : State) : State :=
  match s.phase with
  | .idle =>
      if s.executeTasks then
        match s.queue.getLast? with
        | some item => { s with queue := s.queue.dropLast, phase := .popped item }
        | Option.none => s
      else
        { s with phase := .exited }
  | .popped item =>
      if s.executeTasks then
        { s with phase := .executed item (item.fn item.params),
                 execLog := s.execLog ++ [item.id] }
      else
        { s with phase := .exited }
  | .executed item res =>
      if s.executeTasks then
        match res with
        | .exn msg =>
            { s with phase := .idle,
                     events := s.events ++
                       [.workFailure item.id ("An error ocurred: " ++ msg)
                         (format_exc msg)] }
        | .ok v =>
            { s with phase := .idle,
                     events := s.events ++
                       [.workCompleted item.id
                         (if v = PyVal.none then PyVal.dict [] else v)] }
      else
        { s with phase := .idle }
  | .exited => s

/-- Interleaved semantics: apply one action to the state. -/
def step (s : State) (a : Action) : State :=
  match a with
  | .queue_work fn params asap => (queue_work s fn params asap).2
  | .clear => clear s
  | .stop => stop s
  | .runStep => runStep s

/-- Run a whole schedule of interleaved actions. -/
def run (s : State) (acts : List Action) : State :=
  acts.foldl step s

/-- Number of events in `s` correlated with id `k`. -/
def countFor (s : State) (k : Nat) : Nat :=
  (s.events.map Event.eid).count k

/-- Ids held by the loop between mutex regions (popped or executed item). -/
def phaseIds : Phase → List Nat
  | .idle => []
  | .popped item => [item.id]
  | .executed item _ => [item.id]
  | .exited => []

/-- Every id the state can still emit an event for, or has emitted one for:
pending queue items, the in-flight item, and already-emitted events. -/
def trackedIds (s : State) : List Nat :=
  s.queue.map WorkItem.id ++ phaseIds s.phase ++ s.events.map Event.eid

/-- Predicate: `k` is an id the worker has forgotten: below the uuid counter and absent
from the queue, the in-flight slot and the emitted events. -/
def Fresh (s : State) (k : Nat) : Prop :=
  k < s.nextId ∧ k ∉ trackedIds s

/-- Well-formedness: tracked ids are pairwise distinct and below the uuid
counter.  Holds initially and is preserved by every action. -/
def Wf (s : State) : Prop :=
  (trackedIds s).Nodup ∧ ∀ i ∈ trackedIds s, i < s.nextId

/-- No event correlated with `k` is ever emitted from `s` on, whatever the
callers and the worker thread do. -/
def NoEventEver (s : State) (k : Nat) : Prop :=
  ∀ acts : List Action, countFor (run s acts) k = 0

theorem run_cons (s : State) (a : Action) (acts : List Action) :
    run s (a :: acts) = run (step s a) acts := rfl

theorem run_append (s : State) (l₁ l₂ : List Action) :
    run s (l₁ ++ l₂) = run (run s l₁) l₂ :=
  List.foldl_append ..

/-- Once `_execute_tasks` is false, no step changes the event trace, starts a
callable, or resurrects the flag. -/
theorem step_stopped_frame (s : State) (a : Action)
    (h : s.executeTasks = false) :
    (step s a).events = s.events ∧ (step s a).execLog = s.execLog ∧
      (step s a).executeTasks = false := by
  cases a with
  | queue_work fn params asap => exact ⟨rfl, rfl, h⟩
  | clear => exact ⟨rfl, rfl, h⟩
  | stop => exact ⟨rfl, rfl, rfl⟩
  | runStep =>
      cases hp : s.phase with
      | idle => simp [step, runStep, hp, h]
      | popped item => simp [step, runStep, hp, h]
      | executed item res => simp [step, runStep, hp, h]
      | exited => simp [step, runStep, hp, h]

/-- Once `_execute_tasks` is false, whole schedules leave the event and
execution traces unchanged. -/
theorem run_stopped_frame (acts : List Action) (s : State)
    (h : s.executeTasks = false) :
    (run s acts).events = s.events ∧ (run s acts).execLog = s.execLog ∧
      (run s acts).executeTasks = false := by
  induction acts generalizing s with
  | nil => exact ⟨rfl, rfl, h⟩
  | cons a rest ih =>
      obtain ⟨he, hl, hx⟩ := step_stopped_frame s a h
      obtain ⟨he2, hl2, hx2⟩ := ih (step s a) hx
      exact ⟨he2.trans he, hl2.trans hl, hx2⟩

theorem nodup_of_subperm {l₁ l₂ : List Nat} (h : List.Subperm l₁ l₂)
    (h₂ : l₂.Nodup) : l₁.Nodup := by
  obtain ⟨l, hp, hs⟩ := h
  exact hp.nodup (hs.nodup h₂)

/-- Enqueueing adds exactly the fresh id to the tracked ids. -/
theorem trackedIds_queue_work (s : State) (fn : Job) (p : PyVal)
    (asap : Bool) :
    List.Perm (trackedIds (step s (.queue_work fn p asap)))
      (s.nextId :: trackedIds s) := by
  cases asap with
  | true => simp [step, queue_work, trackedIds]
  | false =>
      simp only [step, queue_work, trackedIds, List.map_append, List.map_cons,
        List.map_nil, List.append_assoc, Bool.false_eq_true, if_false,
        List.singleton_append]
      exact List.perm_middle

theorem nextId_queue_work (s : State) (fn : Job) (p : PyVal) (asap : Bool) :
    (step s (.queue_work fn p asap)).nextId = s.nextId + 1 := by
  cases asap <;> rfl

/-- Clearing only discards tracked ids. -/
theorem trackedIds_clear (s : State) :
    List.Sublist (trackedIds (step s .clear)) (trackedIds s) := by
  simp only [step, clear, trackedIds, List.map_nil, List.nil_append,
    List.append_assoc]
  exact List.sublist_append_right _ _

theorem trackedIds_stop (s : State) :
    trackedIds (step s .stop) = trackedIds s := rfl

/-- The single event `Worker.run` emits for a processed item: failure with
message and trace if the callable raised, else completion with
`data if data is not None else dict()`. -/
def emitEvent (item : WorkItem) : Event :=
  match item.fn item.params with
  | .exn msg =>
      .workFailure item.id ("An error ocurred: " ++ msg) (format_exc msg)
  | .ok v => .workCompleted item.id (if v = PyVal.none then PyVal.dict [] else v)

theorem emitEvent_eid (item : WorkItem) : (emitEvent item).eid = item.id := by
  unfold emitEvent
  cases item.fn item.params with
  | exn msg => rfl
  | ok v => rfl

theorem sublist_drop_mid {a : Nat} (l₁ l₂ l₃ : List Nat) :
    List.Sublist (l₁ ++ ([] ++ l₃)) (l₁ ++ ([a] ++ l₂ ++ l₃)) := by
  refine List.Sublist.append_left ?_ l₁
  simp only [List.nil_append, List.singleton_append, List.append_assoc]
  exact (List.sublist_append_right l₂ l₃).cons a

/-- A worker micro-step never invents a tracked id: it moves an id from the
queue to the in-flight slot, from the in-flight slot to the event trace, or
drops one (an item discarded by the `break` after `stop`). -/
theorem trackedIds_runStep (s : State) :
    List.Subperm (trackedIds (step s .runStep)) (trackedIds s) := by
  obtain ⟨x, q, ph, n, ev, lg⟩ := s
  show List.Subperm
    (trackedIds (runStep ⟨x, q, ph, n, ev, lg⟩)) (trackedIds ⟨x, q, ph, n, ev, lg⟩)
  cases ph with
  | idle =>
      cases x with
      | false => exact List.Subperm.refl _
      | true =>
          rcases q.eq_nil_or_concat' with rfl | ⟨q', item, rfl⟩
          · exact List.Subperm.refl _
          · simp only [runStep, List.getLast?_concat, List.dropLast_concat,
              trackedIds, phaseIds, List.map_append, List.map_cons,
              List.map_nil, List.append_assoc, List.nil_append,
              List.singleton_append]
            exact List.Subperm.refl _
  | popped item =>
      cases x with
      | true => exact List.Subperm.refl _
      | false =>
          simp only [runStep, trackedIds, phaseIds, List.append_assoc]
          exact (sublist_drop_mid _ [] _).subperm
  | executed item res =>
      cases x with
      | true =>
          cases res with
          | exn msg =>
              simp only [runStep, if_true, trackedIds, phaseIds,
                List.map_append, List.map_cons, List.map_nil, Event.eid,
                List.append_assoc, List.nil_append, List.append_nil,
                List.singleton_append]
              exact (List.Perm.append_left _ List.perm_append_comm).subperm
          | ok v =>
              simp only [runStep, if_true, trackedIds, phaseIds,
                List.map_append, List.map_cons, List.map_nil, Event.eid,
                List.append_assoc, List.nil_append, List.append_nil,
                List.singleton_append]
              exact (List.Perm.append_left _ List.perm_append_comm).subperm
      | false =>
          simp only [runStep, trackedIds, phaseIds, List.append_assoc]
          exact (sublist_drop_mid _ [] _).subperm
  | exited => exact List.Subperm.refl _

theorem nextId_runStep (s : State) : (step s .runStep).nextId = s.nextId := by
  obtain ⟨x, q, ph, n, ev, lg⟩ := s
  show (runStep ⟨x, q, ph, n, ev, lg⟩).nextId = n
  cases ph with
  | idle =>
      cases x with
      | false => rfl
      | true =>
          rcases q.eq_nil_or_concat' with rfl | ⟨q', item, rfl⟩
          · rfl
          · simp only [runStep, List.getLast?_concat, if_true]
  | popped item => cases x <;> rfl
  | executed item res =>
      cases x with
      | true => cases res <;> rfl
      | false => rfl
  | exited => rfl

/-- A forgotten id stays forgotten across any single action. -/
theorem fresh_step (s : State) (k : Nat) (a : Action) (h : Fresh s k) :
    Fresh (step s a) k := by
  obtain ⟨hlt, hmem⟩ := h
  cases a with
  | queue_work fn p asap =>
      refine ⟨?_, fun hin => ?_⟩
      · rw [nextId_queue_work]; exact Nat.lt_succ_of_lt hlt
      · have := (trackedIds_queue_work s fn p asap).subset hin
        rcases List.mem_cons.1 this with h1 | h1
        · exact absurd h1 (Nat.ne_of_lt hlt)
        · exact hmem h1
  | clear =>
      exact ⟨hlt, fun hin => hmem ((trackedIds_clear s).subset hin)⟩
  | stop => exact ⟨hlt, fun hin => hmem (by rwa [trackedIds_stop] at hin)⟩
  | runStep =>
      refine ⟨?_, fun hin => hmem ((trackedIds_runStep s).subset hin)⟩
      rw [nextId_runStep]
      exact hlt

/-- A forgotten id stays forgotten across any schedule. -/
theorem fresh_run (s : State) (k : Nat) (acts : List Action)
    (h : Fresh s k) : Fresh (run s acts) k := by
  induction acts generalizing s with
  | nil => exact h
  | cons a rest ih => exact ih (step s a) (fresh_step s k a h)

/-- A forgotten id has no event now. -/
theorem countFor_eq_zero_of_fresh (s : State) (k : Nat) (h : Fresh s k) :
    countFor s k = 0 := by
  refine List.count_eq_zero_of_not_mem (fun hin => h.2 ?_)
  exact List.mem_append.2 (Or.inr hin)

/-- A forgotten id never receives an event, whatever happens from here on. -/
theorem noEventEver_of_fresh (s : State) (k : Nat) (h : Fresh s k) :
    NoEventEver s k :=
  fun acts => countFor_eq_zero_of_fresh _ _ (fresh_run s k acts h)

theorem wf_init : Wf init := by
  constructor <;> simp [trackedIds, init, phaseIds]

/-- Well-formedness (distinct tracked ids, all below the uuid counter) is
preserved by every action. -/
theorem wf_step (s : State) (a : Action) (h : Wf s) : Wf (step s a) := by
  obtain ⟨hnd, hbd⟩ := h
  cases a with
  | queue_work fn p asap =>
      have hperm := trackedIds_queue_work s fn p asap
      constructor
      · refine hperm.symm.nodup ?_
        exact List.nodup_cons.2 ⟨fun hin => Nat.lt_irrefl _ (hbd _ hin), hnd⟩
      · intro i hi
        rw [nextId_queue_work]
        rcases List.mem_cons.1 (hperm.subset hi) with h1 | h1
        · omega
        · exact Nat.lt_succ_of_lt (hbd i h1)
  | clear =>
      refine ⟨hnd.sublist (trackedIds_clear s), fun i hi => ?_⟩
      exact hbd i ((trackedIds_clear s).subset hi)
  | stop =>
      exact ⟨by rwa [trackedIds_stop], fun i hi =>
        hbd i (by rwa [trackedIds_stop] at hi)⟩
  | runStep =>
      refine ⟨nodup_of_subperm (trackedIds_runStep s) hnd, fun i hi => ?_⟩
      rw [nextId_runStep]
      exact hbd i ((trackedIds_runStep s).subset hi)

theorem wf_run (s : State) (acts : List Action) (h : Wf s) :
    Wf (run s acts) := by
  induction acts generalizing s with
  | nil => exact h
  | cons a rest ih => exact ih (step s a) (wf_step s a h)

/-- In a well-formed state no id has more than one event. -/
theorem countFor_le_one_of_wf (s : State) (k : Nat) (h : Wf s) :
    countFor s k ≤ 1 := by
  have hev : (s.events.map Event.eid).Nodup := h.1.of_append_right
  exact List.nodup_iff_count_le_one.1 hev k

theorem steps_split (m n : Nat) : steps (m + n) = steps m ++ steps n :=
  List.replicate_add m n Action.runStep

/-- Draining: a running idle `Worker` given `3·|queue|` micro-steps processes
every pending item, popping from the BACK of the list each time, and emits
exactly the corresponding events, in reverse enqueue order. -/
theorem run_drain (s : State) (hx : s.executeTasks = true)
    (hp : s.phase = .idle) :
    run s (steps (3 * s.queue.length)) =
      { s with queue := [],
               events := s.events ++ s.queue.reverse.map emitEvent,
               execLog := s.execLog ++ s.queue.reverse.map WorkItem.id } := by
  obtain ⟨x, q, ph, n, ev, lg⟩ := s
  cases hx
  cases hp
  induction q using List.reverseRecOn generalizing ev lg with
  | nil => simp [steps, run]
  | append_singleton q' item ih =>
      have h3 : 3 * (q' ++ [item]).length = 3 + 3 * q'.length := by
        simp [List.length_append]
        ring
      rw [h3, steps_split, run_append]
      have hfirst :
          run ⟨true, q' ++ [item], .idle, n, ev, lg⟩ (steps 3) =
            ⟨true, q', .idle, n, ev ++ [emitEvent item], lg ++ [item.id]⟩ := by
        show step (step (step ⟨true, q' ++ [item], .idle, n, ev, lg⟩
          .runStep) .runStep) .runStep = _
        simp only [step, runStep, List.getLast?_concat, List.dropLast_concat,
          if_true, emitEvent]
        cases item.fn item.params with
        | exn msg => rfl
        | ok v => rfl
      rw [hfirst, ih]
      simp [List.reverse_append, List.append_assoc]

theorem queueIds_queue_work (s : State) (fn : Job) (p : PyVal) (asap : Bool) :
    List.Perm ((step s (.queue_work fn p asap)).queue.map WorkItem.id)
      (s.nextId :: s.queue.map WorkItem.id) := by
  cases asap with
  | true => exact List.Perm.refl _
  | false =>
      simp only [step, queue_work, Bool.false_eq_true, if_false,
        List.map_append, List.map_cons, List.map_nil]
      exact List.perm_append_comm

/-- A batch of `queue_work` calls touches only the queue and the uuid
counter: it appends `|es|` fresh consecutive ids to the pending ids. -/
theorem run_enqueues (es : List (Job × PyVal × Bool)) (s : State) :
    (run s (enqueues es)).executeTasks = s.executeTasks ∧
    (run s (enqueues es)).phase = s.phase ∧
    (run s (enqueues es)).events = s.events ∧
    (run s (enqueues es)).execLog = s.execLog ∧
    (run s (enqueues es)).nextId = s.nextId + es.length ∧
    List.Perm ((run s (enqueues es)).queue.map WorkItem.id)
      (s.queue.map WorkItem.id ++ List.range' s.nextId es.length) := by
  induction es generalizing s with
  | nil =>
      refine ⟨rfl, rfl, rfl, rfl, rfl, ?_⟩
      show List.Perm (s.queue.map WorkItem.id)
        (s.queue.map WorkItem.id ++ List.range' s.nextId 0)
      simp
  | cons e rest ih =>
      have hcons : run s (enqueues (e :: rest)) =
          run (step s (.queue_work e.1 e.2.1 e.2.2)) (enqueues rest) := rfl
      rw [hcons]
      obtain ⟨h1, h2, h3, h4, h5, h6⟩ := ih (step s (.queue_work e.1 e.2.1 e.2.2))
      refine ⟨h1, h2, h3, h4, ?_, ?_⟩
      · rw [h5, nextId_queue_work]
        show s.nextId + 1 + rest.length = s.nextId + (e :: rest).length
        simp [List.length_cons]
        omega
      · refine (h6.trans ?_)
        have hq := (queueIds_queue_work s e.1 e.2.1 e.2.2).append_right
          (List.range' (s.nextId + 1) rest.length)
        refine (List.Perm.trans ?_ (hq.trans List.perm_middle.symm))
        exact List.Perm.refl _

/-- Enqueue a batch of `n` items into a fresh `Worker` and let the loop run
`3·n` micro-steps: every enqueued id receives exactly one event. -/
theorem countFor_enqueues_drain (es : List (Job × PyVal × Bool)) (k : Nat)
    (hk : k < es.length) :
    countFor (run init (enqueues es ++ steps (3 * es.length))) k = 1 := by
  rw [run_append]
  obtain ⟨h1, h2, h3, h4, h5, h6⟩ := run_enqueues es init
  have hlen : (run init (enqueues es)).queue.length = es.length := by
    have hle := h6.length_eq
    simpa [init] using hle
  have hd := run_drain (run init (enqueues es)) h1 h2
  rw [hlen] at hd
  rw [hd]
  unfold countFor
  have hev : (run init (enqueues es)).events = [] := h3
  simp only [hev, List.nil_append, List.map_map]
  have hmap : (Event.eid ∘ emitEvent) = WorkItem.id := by
    funext item
    exact emitEvent_eid item
  rw [hmap]
  have hperm : List.Perm
      ((run init (enqueues es)).queue.reverse.map WorkItem.id)
      (List.range' 0 es.length) := by
    refine ((List.reverse_perm _).map WorkItem.id).trans ?_
    simpa [init] using h6
  rw [hperm.count_eq k]
  refine List.count_eq_one_of_mem (List.nodup_range' 0 es.length) ?_
  rw [List.mem_range'_1]
  omega

end Worker

namespace QtWorker

/-- Events emitted by `QtWorker`: `workCompleted = Signal(str, object)` and
`workFailure = Signal(str, str)` (id, single combined message-and-trace
string). -/
inductive Event where
  | workCompleted (id : Nat) (data : PyVal) : Event
  | workFailure (id : Nat) (msg : String) : Event
deriving DecidableEq

/-- The id an event is correlated with. -/
def Event.eid : Event → Nat
  | .workCompleted i _ => i
  | .workFailure i _ => i

/-- Control position of the thread inside `QtWorker.run`. -/
inductive Phase where
  | idle : Phase
  | popped (item : WorkItem) : Phase
  | executed (item : WorkItem) (res : ExecResult) : Phase
  | exited : Phase

/-- Full state of one `QtWorker` instance with its observable traces. -/
structure State where
  executeTasks : Bool
  queue : List WorkItem
  phase : Phase
  nextId : Nat
  events : List Event
  execLog : List Nat

/-- The state right after `QtWorker.__init__`, thread at the top of `run`. -/
def init : State :=
  { executeTasks := true, queue := [], phase := .idle, nextId := 0,
    events := [], execLog := [] }

/-- Models `QtWorker.queue_work(worker_fn, params, asap)`: same queue discipline as
`Worker.queue_work` (insert at index 0 if `asap` else append), fresh uid
returned, no state check. -/
def queue_work (s : State) (fn : Job) (params : PyVal) (asap : Bool) :
    Nat × State :=
  let uid := s.nextId
  let work : WorkItem := ⟨uid, fn, params⟩
  (uid,
    { s with
      queue := if asap then work :: s.queue else s.queue ++ [work],
      nextId := s.nextId + 1 })

/-- Models `QtWorker.clear()`: `self._queue = list()` under the mutex. -/
def clear (s : State) : State :=
  { s with queue := [] }

/-- Models `QtWorker.stop()`: sets `_execute_tasks = False`; it takes no
`wait_for_completion` parameter and does not wait for the thread. -/
def stop (s : State) : State :=
  { s with executeTasks := false }

/-- One micro-step of the thread running `QtWorker.run`.

* `idle`: the `while self._execute_tasks` check; then the queue length is read
  under the mutex; if 0 the thread sleeps 200ms (no state change), else
  `item_to_process = self._queue.pop(0)` removes the FIRST element.
* `popped`: the callable is invoked unconditionally (no flag check between
  the pop and the call in this variant) and runs to completion.
* `executed`: the emit guarded by `if self._execute_tasks`: on an exception a
  single combined string `'An error ocurred: ' + str(e) + ' | ' + traceback`;
  on a normal return `data if data is not None else dict()`. -/
def runStep (s : State) : State :=
  match s.phase with
  | .idle =>
      if s.executeTasks then
        match s.queue with
        | [] => s
        | item :: rest => { s with queue := rest, phase := .popped item }
      else
        { s with phase := .exited }
  | .popped item =>
      { s with phase := .executed item (item.fn item.params),
               execLog := s.execLog ++ [item.id] }
  | .executed item res =>
      if s.executeTasks then
        match res with
        | .exn msg =>
            { s with phase := .idle,
                     events := s.events ++
                       [.workFailure item.id
                         ("An error ocurred: " ++ msg ++ " | " ++
                           format_exc msg)] }
        | .ok v =>
            { s with phase := .idle,
                     events := s.events ++
                       [.workCompleted item.id
                         (if v = PyVal.none then PyVal.dict [] else v)] }
      else
        { s with phase := .idle }
  | .exited => s

/-- Interleaved semantics: apply one action to the state. -/
def step (s : State) (a : Action) : State :=
  match a with
  | .queue_work fn params asap => (queue_work s fn params asap).2
  | .clear => clear s
  | .stop => stop s
  | .runStep => runStep s

/-- Run a whole schedule of interleaved actions. -/
def run (s : State) (acts : List Action) : State :=
  acts.foldl step s

/-- Number of events in `s` correlated with id `k`. -/
def countFor (s : State) (k : Nat) : Nat :=
  (s.events.map Event.eid).count k

/-- Ids held by the loop between mutex regions (popped or executed item). -/
def phaseIds : Phase → List Nat
  | .idle => []
  | .popped item => [item.id]
  | .executed item _ => [item.id]
  | .exited => []

/-- Every id the state can still emit an event for, or has emitted one for. -/
def trackedIds (s : State) : List Nat :=
  s.queue.map WorkItem.id ++ phaseIds s.phase ++ s.events.map Event.eid

/-- Predicate: `k` is an id the worker has forgotten. -/
def Fresh (s : State) (k : Nat) : Prop :=
  k < s.nextId ∧ k ∉ trackedIds s

/-- Well-formedness: tracked ids are pairwise distinct and below the uuid
counter. -/
def Wf (s : State) : Prop :=
  (trackedIds s).Nodup ∧ ∀ i ∈ trackedIds s, i < s.nextId

/-- No event correlated with `k` is ever emitted from `s` on. -/
def NoEventEver (s : State) (k : Nat) : Prop :=
  ∀ acts : List Action, countFor (run s acts) k = 0

theorem qt_run_cons (s : State) (a : Action) (acts : List Action) :
    run s (a :: acts) = run (step s a) acts := rfl

theorem qt_run_append (s : State) (l₁ l₂ : List Action) :
    run s (l₁ ++ l₂) = run (run s l₁) l₂ :=
  List.foldl_append ..

/-- Once `_execute_tasks` is false no step emits an event or resurrects the
flag.  (Unlike `Worker`, a `QtWorker` item already popped when `stop()` lands
still has its callable invoked — there is no flag check between the pop and
the call — but the emit is suppressed by the guard.) -/
theorem step_stopped_events (s : State) (a : Action)
    (h : s.executeTasks = false) :
    (step s a).events = s.events ∧ (step s a).executeTasks = false := by
  cases a with
  | queue_work fn params asap => exact ⟨rfl, h⟩
  | clear => exact ⟨rfl, h⟩
  | stop => exact ⟨rfl, rfl⟩
  | runStep =>
      obtain ⟨x, q, ph, n, ev, lg⟩ := s
      cases h
      cases ph with
      | idle => exact ⟨rfl, rfl⟩
      | popped item => exact ⟨rfl, rfl⟩
      | executed item res => exact ⟨rfl, rfl⟩
      | exited => exact ⟨rfl, rfl⟩

/-- Once `_execute_tasks` is false, whole schedules leave the event trace
unchanged. -/
theorem run_stopped_events (acts : List Action) (s : State)
    (h : s.executeTasks = false) :
    (run s acts).events = s.events ∧ (run s acts).executeTasks = false := by
  induction acts generalizing s with
  | nil => exact ⟨rfl, h⟩
  | cons a rest ih =>
      obtain ⟨he, hx⟩ := step_stopped_events s a h
      obtain ⟨he2, hx2⟩ := ih (step s a) hx
      exact ⟨he2.trans he, hx2⟩

/-- Enqueueing adds exactly the fresh id to the tracked ids. -/
theorem qt_trackedIds_queue_work (s : State) (fn : Job) (p : PyVal)
    (asap : Bool) :
    List.Perm (trackedIds (step s (.queue_work fn p asap)))
      (s.nextId :: trackedIds s) := by
  cases asap with
  | true => simp [step, queue_work, trackedIds]
  | false =>
      simp only [step, queue_work, trackedIds, List.map_append, List.map_cons,
        List.map_nil, List.append_assoc, Bool.false_eq_true, if_false,
        List.singleton_append]
      exact List.perm_middle

theorem qt_nextId_queue_work (s : State) (fn : Job) (p : PyVal) (asap : Bool) :
    (step s (.queue_work fn p asap)).nextId = s.nextId + 1 := by
  cases asap <;> rfl

/-- Clearing only discards tracked ids. -/
theorem qt_trackedIds_clear (s : State) :
    List.Sublist (trackedIds (step s .clear)) (trackedIds s) := by
  simp only [step, clear, trackedIds, List.map_nil, List.nil_append,
    List.append_assoc]
  exact List.sublist_append_right _ _

theorem qt_trackedIds_stop (s : State) :
    trackedIds (step s .stop) = trackedIds s := rfl

/-- A `QtWorker` micro-step never invents a tracked id. -/
theorem qt_trackedIds_runStep (s : State) :
    List.Subperm (trackedIds (step s .runStep)) (trackedIds s) := by
  obtain ⟨x, q, ph, n, ev, lg⟩ := s
  show List.Subperm
    (trackedIds (runStep ⟨x, q, ph, n, ev, lg⟩)) (trackedIds ⟨x, q, ph, n, ev, lg⟩)
  cases ph with
  | idle =>
      cases x with
      | false => exact List.Subperm.refl _
      | true =>
          cases q with
          | nil => exact List.Subperm.refl _
          | cons item rest =>
              simp only [runStep, if_true, trackedIds, phaseIds,
                List.map_cons, List.append_assoc, List.nil_append,
                List.singleton_append, List.cons_append]
              exact List.perm_middle.subperm
  | popped item =>
      cases x <;> exact List.Subperm.refl _
  | executed item res =>
      cases x with
      | true =>
          cases res with
          | exn msg =>
              simp only [runStep, if_true, trackedIds, phaseIds,
                List.map_append, List.map_cons, List.map_nil, Event.eid,
                List.append_assoc, List.nil_append, List.append_nil,
                List.singleton_append]
              exact (List.Perm.append_left _ List.perm_append_comm).subperm
          | ok v =>
              simp only [runStep, if_true, trackedIds, phaseIds,
                List.map_append, List.map_cons, List.map_nil, Event.eid,
                List.append_assoc, List.nil_append, List.append_nil,
                List.singleton_append]
              exact (List.Perm.append_left _ List.perm_append_comm).subperm
      | false =>
          simp only [runStep, trackedIds, phaseIds, List.append_assoc]
          exact (Worker.sublist_drop_mid _ [] _).subperm
  | exited => exact List.Subperm.refl _

theorem qt_nextId_runStep (s : State) : (step s .runStep).nextId = s.nextId := by
  obtain ⟨x, q, ph, n, ev, lg⟩ := s
  show (runStep ⟨x, q, ph, n, ev, lg⟩).nextId = n
  cases ph with
  | idle =>
      cases x with
      | false => rfl
      | true => cases q <;> rfl
  | popped item => cases x <;> rfl
  | executed item res =>
      cases x with
      | true => cases res <;> rfl
      | false => rfl
  | exited => rfl

/-- A forgotten id stays forgotten across any single action. -/
theorem qt_fresh_step (s : State) (k : Nat) (a : Action) (h : Fresh s k) :
    Fresh (step s a) k := by
  obtain ⟨hlt, hmem⟩ := h
  cases a with
  | queue_work fn p asap =>
      refine ⟨?_, fun hin => ?_⟩
      · rw [qt_nextId_queue_work]; exact Nat.lt_succ_of_lt hlt
      · have := (qt_trackedIds_queue_work s fn p asap).subset hin
        rcases List.mem_cons.1 this with h1 | h1
        · exact absurd h1 (Nat.ne_of_lt hlt)
        · exact hmem h1
  | clear =>
      exact ⟨hlt, fun hin => hmem ((qt_trackedIds_clear s).subset hin)⟩
  | stop => exact ⟨hlt, fun hin => hmem (by rwa [qt_trackedIds_stop] at hin)⟩
  | runStep =>
      refine ⟨?_, fun hin => hmem ((qt_trackedIds_runStep s).subset hin)⟩
      rw [qt_nextId_runStep]
      exact hlt

/-- A forgotten id stays forgotten across any schedule. -/
theorem qt_fresh_run (s : State) (k : Nat) (acts : List Action)
    (h : Fresh s k) : Fresh (run s acts) k := by
  induction acts generalizing s with
  | nil => exact h
  | cons a rest ih => exact ih (step s a) (qt_fresh_step s k a h)

/-- A forgotten id never receives an event, whatever happens from here on. -/
theorem qt_noEventEver_of_fresh (s : State) (k : Nat) (h : Fresh s k) :
    NoEventEver s k := by
  intro acts
  refine List.count_eq_zero_of_not_mem (fun hin => ?_)
  exact (qt_fresh_run s k acts h).2 (List.mem_append.2 (Or.inr hin))

/-- The single event `QtWorker.run` emits for a processed item; the failure
case carries one combined message-and-trace string. -/
def emitEvent (item : WorkItem) : Event :=
  match item.fn item.params with
  | .exn msg =>
      .workFailure item.id
        ("An error ocurred: " ++ msg ++ " | " ++ format_exc msg)
  | .ok v => .workCompleted item.id (if v = PyVal.none then PyVal.dict [] else v)

/-- Draining: a running idle `QtWorker` given `3·|queue|` micro-steps
processes every pending item, popping from the FRONT of the list each time,
and emits exactly the corresponding events, in enqueue order. -/
theorem qt_run_drain (s : State) (hx : s.executeTasks = true)
    (hp : s.phase = .idle) :
    run s (steps (3 * s.queue.length)) =
      { s with queue := [],
               events := s.events ++ s.queue.map emitEvent,
               execLog := s.execLog ++ s.queue.map WorkItem.id } := by
  obtain ⟨x, q, ph, n, ev, lg⟩ := s
  cases hx
  cases hp
  induction q generalizing ev lg with
  | nil => simp [steps, run]
  | cons item rest ih =>
      have h3 : 3 * (item :: rest).length = 3 + 3 * rest.length := by
        simp [List.length_cons]
        ring
      rw [h3, Worker.steps_split, qt_run_append]
      have hfirst :
          run ⟨true, item :: rest, .idle, n, ev, lg⟩ (steps 3) =
            ⟨true, rest, .idle, n, ev ++ [emitEvent item],
              lg ++ [item.id]⟩ := by
        show step (step (step ⟨true, item :: rest, .idle, n, ev, lg⟩
          .runStep) .runStep) .runStep = _
        simp only [step, runStep, if_true, emitEvent]
        cases item.fn item.params with
        | exn msg => rfl
        | ok v => rfl
      rw [hfirst, ih]
      simp [List.append_assoc]

end QtWorker

/-! ## Concrete callables and states used in closed statements -/

/-- Callable that returns the value 1. -/
def job1 : Job := fun _ => ExecResult.ok (PyVal.val 1)

/-- Callable that returns the value 2. -/
def job2 : Job := fun _ => ExecResult.ok (PyVal.val 2)

/-- Callable that raises an exception whose message is "bad". -/
def jobBad : Job := fun _ => ExecResult.exn "bad"

/-- A fresh `Worker` on which `stop()` has completed. -/
def stoppedWorker : Worker.State := Worker.stop Worker.init

/-- A fresh `QtWorker` on which `stop()` has completed. -/
def stoppedQtWorker : QtWorker.State := QtWorker.stop QtWorker.init

/-! ## The claims -/

/-- C2: the claim says same-priority (Normal) pending items are dequeued and
run in FIFO enqueue order.  `QtWorker.run` pops index 0 and is FIFO, but
`Worker.run` dequeues with Python's `list.pop()`, which removes the LAST
element: two Normal items A (id 0) enqueued strictly before B (id 1) begin
execution as B then A — LIFO, for every choice of callables and params. -/
theorem worker_normal_items_run_lifo (fA fB : Job) (pA pB : PyVal) :
    (Worker.run Worker.init
      ([.queue_work fA pA false, .queue_work fB pB false] ++ steps 6)).execLog
      = [1, 0] ∧
    (QtWorker.run QtWorker.init
      ([.queue_work fA pA false, .queue_work fB pB false] ++ steps 6)).execLog
      = [0, 1] := by
  constructor
  · exact congrArg Worker.State.execLog
      (Worker.run_drain (Worker.run Worker.init
        [.queue_work fA pA false, .queue_work fB pB false]) rfl rfl)
  · exact congrArg QtWorker.State.execLog
      (QtWorker.qt_run_drain (QtWorker.run QtWorker.init
        [.queue_work fA pA false, .queue_work fB pB false]) rfl rfl)

/-- C3: the claim says an Immediate (`asap=True`) item enqueued while Normal
items are pending and nothing is executing is dequeued before them.
`queue_work` does insert it at index 0, and `QtWorker.run` (pop(0)) runs it
first; but `Worker.run` pops from the BACK, so the Immediate item (id 1) runs
AFTER the pending Normal item (id 0) — the priority jump is inverted. -/
theorem worker_asap_item_runs_last (fA fB : Job) (pA pB : PyVal) :
    (Worker.run Worker.init
      ([.queue_work fA pA false, .queue_work fB pB true] ++ steps 6)).execLog
      = [0, 1] ∧
    (QtWorker.run QtWorker.init
      ([.queue_work fA pA false, .queue_work fB pB true] ++ steps 6)).execLog
      = [1, 0] := by
  constructor
  · exact congrArg Worker.State.execLog
      (Worker.run_drain (Worker.run Worker.init
        [.queue_work fA pA false, .queue_work fB pB true]) rfl rfl)
  · exact congrArg QtWorker.State.execLog
      (QtWorker.qt_run_drain (QtWorker.run QtWorker.init
        [.queue_work fA pA false, .queue_work fB pB true]) rfl rfl)

/-- C8 counterexample: in `QtWorker`, Immediate item A (id 0) enqueued before
Immediate item B (id 1) is executed AFTER B — each `insert(0, ...)` pushes in
front of the previous one and `pop(0)` takes the front, so Immediate items
come out LIFO, refuting the claimed FIFO tie-break. -/
theorem qtworker_immediate_items_lifo_cex :
    (QtWorker.run QtWorker.init
      ([.queue_work job1 PyVal.none true, .queue_work job2 PyVal.none true]
        ++ steps 6)).execLog = [1, 0] := rfl

/-- C8 (amended): among Immediate items, `QtWorker` dequeues and executes in
LIFO order of enqueue (most recently enqueued first); `Worker` preserves the
relative enqueue order among Immediate items (its back-pop reverses the
front-insertion a second time), though after pending Normal items. -/
theorem immediate_items_tiebreak (fA fB : Job) (pA pB : PyVal) :
    (Worker.run Worker.init
      ([.queue_work fA pA true, .queue_work fB pB true] ++ steps 6)).execLog
      = [0, 1] ∧
    (QtWorker.run QtWorker.init
      ([.queue_work fA pA true, .queue_work fB pB true] ++ steps 6)).execLog
      = [1, 0] := by
  constructor
  · exact congrArg Worker.State.execLog
      (Worker.run_drain (Worker.run Worker.init
        [.queue_work fA pA true, .queue_work fB pB true]) rfl rfl)
  · exact congrArg QtWorker.State.execLog
      (QtWorker.qt_run_drain (QtWorker.run QtWorker.init
        [.queue_work fA pA true, .queue_work fB pB true]) rfl rfl)

/-- Schedule for the fault-isolation scenario: a Normal item (id 0) is
pending, an item whose callable raises (id 1) is enqueued and processed, the
loop drains, and a further item (id 2) is enqueued and processed. -/
def faultSchedule (m : String) (pA pC pD : PyVal) (k j : Nat) : List Action :=
  [.queue_work (fun _ => ExecResult.ok (PyVal.val k)) pC false,
   .queue_work (fun _ => ExecResult.exn m) pA false] ++ steps 6 ++
    [.queue_work (fun _ => ExecResult.ok (PyVal.val j)) pD false] ++ steps 3

set_option maxHeartbeats 2000000 in
/-- C5: a callable that raises (here with arbitrary message `m`) produces
exactly one failure event for its id; the worker loop is not terminated
(`_execute_tasks` still true, thread still running), the other pending item
is unaffected and is executed next, and a subsequently enqueued item is
executed as well.  (In `Worker`'s LIFO order the raising item, enqueued
second, is in fact processed first.) -/
theorem worker_fault_isolation (m : String) (pA pC pD : PyVal) (k j : Nat) :
    (Worker.run Worker.init (faultSchedule m pA pC pD k j)).events =
      [Worker.Event.workFailure 1 ("An error ocurred: " ++ m) (format_exc m),
       Worker.Event.workCompleted 0 (PyVal.val k),
       Worker.Event.workCompleted 2 (PyVal.val j)] ∧
    (Worker.run Worker.init (faultSchedule m pA pC pD k j)).executeTasks
      = true ∧
    (Worker.run Worker.init (faultSchedule m pA pC pD k j)).queue = [] :=
  ⟨rfl, rfl, rfl⟩

/-- Schedule for the ValueError("bad") scenario: enqueue a callable raising
"bad" (id 0), process it, then enqueue a succeeding callable (id 1) and
process it. -/
def badSchedule : List Action :=
  [.queue_work jobBad PyVal.none false] ++ steps 3 ++
    [.queue_work job1 PyVal.none false] ++ steps 3

/-- C9: for a callable raising ValueError("bad"), the single failure event
carries the message "bad" (inside the string "An error ocurred: bad")
together with a diagnostic trace — `Worker` in two separate signal
arguments, `QtWorker` combined into one string — and afterwards the worker
is still running and executes further enqueued work (id 1 completes). -/
theorem failure_event_carries_message_and_trace :
    (Worker.run Worker.init badSchedule).events =
      [Worker.Event.workFailure 0 ("An error ocurred: " ++ "bad")
        (format_exc "bad"),
       Worker.Event.workCompleted 1 (PyVal.val 1)] ∧
    (∃ pre post : String,
      "An error ocurred: " ++ "bad" = pre ++ "bad" ++ post) ∧
    (Worker.run Worker.init badSchedule).executeTasks = true ∧
    (QtWorker.run QtWorker.init badSchedule).events =
      [QtWorker.Event.workFailure 0
        ("An error ocurred: " ++ "bad" ++ " | " ++ format_exc "bad"),
       QtWorker.Event.workCompleted 1 (PyVal.val 1)] ∧
    (QtWorker.run QtWorker.init badSchedule).executeTasks = true :=
  ⟨rfl, ⟨"An error ocurred: ", "", by decide⟩, rfl, rfl, rfl⟩

/-- C10: a callable returning None yields a completion event carrying the
empty dict `dict()`; any non-None return value (a non-empty or empty dict, or
any other object) is passed through unchanged.  Holds for both `Worker` and
`QtWorker` (`data = data if data is not None else dict()`). -/
theorem none_result_becomes_empty_dict (p : PyVal) (k : Nat)
    (es : List (String × Nat)) :
    (Worker.run Worker.init
        ([.queue_work (fun _ => ExecResult.ok PyVal.none) p false] ++ steps 3)).events
      = [Worker.Event.workCompleted 0 (PyVal.dict [])] ∧
    (Worker.run Worker.init
        ([.queue_work (fun _ => ExecResult.ok (PyVal.val k)) p false] ++ steps 3)).events
      = [Worker.Event.workCompleted 0 (PyVal.val k)] ∧
    (Worker.run Worker.init
        ([.queue_work (fun _ => ExecResult.ok (PyVal.dict es)) p false] ++ steps 3)).events
      = [Worker.Event.workCompleted 0 (PyVal.dict es)] ∧
    (QtWorker.run QtWorker.init
        ([.queue_work (fun _ => ExecResult.ok PyVal.none) p false] ++ steps 3)).events
      = [QtWorker.Event.workCompleted 0 (PyVal.dict [])] ∧
    (QtWorker.run QtWorker.init
        ([.queue_work (fun _ => ExecResult.ok (PyVal.val k)) p false] ++ steps 3)).events
      = [QtWorker.Event.workCompleted 0 (PyVal.val k)] ∧
    (QtWorker.run QtWorker.init
        ([.queue_work (fun _ => ExecResult.ok (PyVal.dict es)) p false] ++ steps 3)).events
      = [QtWorker.Event.workCompleted 0 (PyVal.dict es)] :=
  ⟨rfl, rfl, rfl, rfl, rfl, rfl⟩

/-- C6: `stop()` sets `_execute_tasks = False` before `wait()` blocks until
the thread exits, and every event emission and every callable invocation in
`Worker.run` is guarded by that flag: whatever the worker thread and other
callers do after `stop()` — let alone after `stop(wait_for_completion=True)`
returns, which is later still — the event trace never grows and no further
callable begins executing (an already-executing callable runs to completion
by construction, there is no preemption).  For `QtWorker`, whose `stop()`
takes no argument and never waits, no event is emitted after `stop()`
either. -/
theorem no_events_after_stop (s : Worker.State) (acts : List Action)
    (sq : QtWorker.State) (qacts : List Action) :
    (Worker.run (Worker.stop s) acts).events = s.events ∧
    (Worker.run (Worker.stop s) acts).execLog = s.execLog ∧
    (QtWorker.run (QtWorker.stop sq) qacts).events = sq.events := by
  obtain ⟨he, hl, _⟩ := Worker.run_stopped_frame acts (Worker.stop s) rfl
  obtain ⟨hqe, _⟩ := QtWorker.run_stopped_events qacts (QtWorker.stop sq) rfl
  exact ⟨he, hl, hqe⟩

/-- C1 counterexample: `queue_work` returns id 0, then `stop()` runs and
completes before the worker thread ever dequeues — a schedule the claim
explicitly covers ("returns an id k before stop() is observed complete").
No event is ever emitted for id 0, under any continuation whatsoever:
the pending item is simply dropped. -/
theorem worker_event_lost_on_stop_cex :
    (Worker.queue_work Worker.init job1 PyVal.none false).1 = 0 ∧
    (Worker.run Worker.init
      [.queue_work job1 PyVal.none false, .stop]).executeTasks = false ∧
    Worker.NoEventEver
      (Worker.run Worker.init [.queue_work job1 PyVal.none false, .stop]) 0 := by
  refine ⟨rfl, rfl, ?_⟩
  intro acts
  obtain ⟨he, _, _⟩ := Worker.run_stopped_frame acts
    (Worker.run Worker.init [.queue_work job1 PyVal.none false, .stop]) rfl
  unfold Worker.countFor
  rw [he]
  rfl

/-- C1 (amended): for every id, never more than one event is ever emitted,
on any schedule whatsoever (ids are unique and each item is dequeued at most
once); and if the worker is left running — a batch of enqueues followed by
the loop draining the queue, with no `stop()` and no `clear()` — then every
enqueued id receives exactly one event.  An id still pending (or popped but
not yet started) when `stop()` lands, or removed by `clear()`, receives no
event, which is what refutes the unconditional claim. -/
theorem worker_event_correlation (es : List (Job × PyVal × Bool)) (k : Nat)
    (acts : List Action) (hk : k < es.length) :
    Worker.countFor (Worker.run Worker.init acts) k ≤ 1 ∧
    Worker.countFor (Worker.run Worker.init
      (enqueues es ++ steps (3 * es.length))) k = 1 :=
  ⟨Worker.countFor_le_one_of_wf _ k
      (Worker.wf_run Worker.init acts Worker.wf_init),
    Worker.countFor_enqueues_drain es k hk⟩

theorem worker_event_correlation_witness :
    0 < ([(job1, PyVal.none, false)] : List (Job × PyVal × Bool)).length ∧
    (Worker.countFor (Worker.run Worker.init []) 0 ≤ 1 ∧
      Worker.countFor (Worker.run Worker.init
        (enqueues [(job1, PyVal.none, false)] ++
          steps (3 * ([(job1, PyVal.none, false)] :
            List (Job × PyVal × Bool)).length))) 0 = 1) :=
  ⟨Nat.one_pos,
    worker_event_correlation [(job1, PyVal.none, false)] 0 [] Nat.one_pos⟩

/-- C4 counterexample: with the worker in the Stopped state (after `stop()`),
`queue_work` still succeeds unconditionally — neither implementation inspects
any state in `queue_work`, and no QueueClosed error exists anywhere in the
code: the call returns the fresh id 0 and the item sits in the queue. -/
theorem queue_work_succeeds_after_stop_cex :
    (Worker.queue_work stoppedWorker job1 PyVal.none false).1 = 0 ∧
    (Worker.queue_work stoppedWorker job1 PyVal.none false).2.queue.map
      WorkItem.id = [0] ∧
    (Worker.queue_work stoppedWorker job1 PyVal.none false).2.executeTasks
      = false ∧
    (QtWorker.queue_work stoppedQtWorker job1 PyVal.none false).1 = 0 ∧
    (QtWorker.queue_work stoppedQtWorker job1 PyVal.none false).2.queue.map
      WorkItem.id = [0] :=
  ⟨rfl, rfl, rfl, rfl, rfl⟩

/-- C4 (amended): `queue_work` never fails in ANY state (it is a total
operation with no error path — there is no QueueClosed error in the code):
it always returns the fresh uuid, distinct from every id the worker knows,
and inserts the item into the queue.  When the run state is Stopped the call
still succeeds; the item is accepted but never executed, and no event is
ever emitted for the returned id.  Same for `QtWorker`. -/
theorem queue_work_always_succeeds (s : Worker.State) (fn : Job) (p : PyVal)
    (asap : Bool) (hw : Worker.Wf s) (sq : QtWorker.State)
    (hq : QtWorker.Wf sq) :
    (Worker.queue_work s fn p asap).1 = s.nextId ∧
    s.nextId ∉ Worker.trackedIds s ∧
    (⟨s.nextId, fn, p⟩ : WorkItem) ∈ (Worker.queue_work s fn p asap).2.queue ∧
    (s.executeTasks = false →
      Worker.NoEventEver (Worker.queue_work s fn p asap).2 s.nextId) ∧
    (QtWorker.queue_work sq fn p asap).1 = sq.nextId ∧
    sq.nextId ∉ QtWorker.trackedIds sq ∧
    (⟨sq.nextId, fn, p⟩ : WorkItem) ∈ (QtWorker.queue_work sq fn p asap).2.queue ∧
    (sq.executeTasks = false →
      QtWorker.NoEventEver (QtWorker.queue_work sq fn p asap).2 sq.nextId) := by
  refine ⟨rfl, ?_, ?_, ?_, rfl, ?_, ?_, ?_⟩
  · exact fun hin => absurd (hw.2 _ hin) (Nat.lt_irrefl _)
  · cases asap with
    | true => exact List.mem_cons_self _ _
    | false =>
        simp only [Worker.queue_work, Bool.false_eq_true, if_false]
        exact List.mem_append.2 (Or.inr (List.mem_singleton.2 rfl))
  · intro hstop acts
    obtain ⟨he, _, _⟩ := Worker.run_stopped_frame acts
      (Worker.queue_work s fn p asap).2 hstop
    unfold Worker.countFor
    rw [he]
    refine List.count_eq_zero_of_not_mem (fun hin => ?_)
    have : s.nextId ∈ Worker.trackedIds s :=
      List.mem_append.2 (Or.inr hin)
    exact absurd (hw.2 _ this) (Nat.lt_irrefl _)
  · exact fun hin => absurd (hq.2 _ hin) (Nat.lt_irrefl _)
  · cases asap with
    | true => exact List.mem_cons_self _ _
    | false =>
        simp only [QtWorker.queue_work, Bool.false_eq_true, if_false]
        exact List.mem_append.2 (Or.inr (List.mem_singleton.2 rfl))
  · intro hstop acts
    obtain ⟨he, _⟩ := QtWorker.run_stopped_events acts
      (QtWorker.queue_work sq fn p asap).2 hstop
    unfold QtWorker.countFor
    rw [he]
    refine List.count_eq_zero_of_not_mem (fun hin => ?_)
    have : sq.nextId ∈ QtWorker.trackedIds sq :=
      List.mem_append.2 (Or.inr hin)
    exact absurd (hq.2 _ this) (Nat.lt_irrefl _)

theorem queue_work_always_succeeds_witness :
    Worker.Wf stoppedWorker ∧ QtWorker.Wf stoppedQtWorker ∧
    ((Worker.queue_work stoppedWorker job1 PyVal.none false).1 =
        stoppedWorker.nextId ∧
      stoppedWorker.nextId ∉ Worker.trackedIds stoppedWorker ∧
      (⟨stoppedWorker.nextId, job1, PyVal.none⟩ : WorkItem) ∈
        (Worker.queue_work stoppedWorker job1 PyVal.none false).2.queue ∧
      (stoppedWorker.executeTasks = false →
        Worker.NoEventEver
          (Worker.queue_work stoppedWorker job1 PyVal.none false).2
          stoppedWorker.nextId) ∧
      (QtWorker.queue_work stoppedQtWorker job1 PyVal.none false).1 =
        stoppedQtWorker.nextId ∧
      stoppedQtWorker.nextId ∉ QtWorker.trackedIds stoppedQtWorker ∧
      (⟨stoppedQtWorker.nextId, job1, PyVal.none⟩ : WorkItem) ∈
        (QtWorker.queue_work stoppedQtWorker job1 PyVal.none false).2.queue ∧
      (stoppedQtWorker.executeTasks = false →
        QtWorker.NoEventEver
          (QtWorker.queue_work stoppedQtWorker job1 PyVal.none false).2
          stoppedQtWorker.nextId)) :=
  ⟨⟨by decide, by decide⟩, ⟨by decide, by decide⟩,
    queue_work_always_succeeds stoppedWorker job1 PyVal.none false
      ⟨by decide, by decide⟩ stoppedQtWorker ⟨by decide, by decide⟩⟩

/-- C7: `clear()` replaces the queue with a fresh empty list and touches
nothing else — not the run state, not the in-flight item (the loop holds it
in a local variable, outside the queue), not the traces; and an id that was
pending in the queue (here any `k` on it, in a well-formed state) never
receives any event afterwards, under any continuation.  Both
implementations. -/
theorem clear_semantics (s : Worker.State) (k : Nat) (hw : Worker.Wf s)
    (hk : k ∈ s.queue.map WorkItem.id)
    (sq : QtWorker.State) (j : Nat) (hq : QtWorker.Wf sq)
    (hj : j ∈ sq.queue.map WorkItem.id) :
    ((Worker.clear s).queue = [] ∧
      (Worker.clear s).executeTasks = s.executeTasks ∧
      (Worker.clear s).phase = s.phase ∧
      (Worker.clear s).events = s.events ∧
      (Worker.clear s).execLog = s.execLog) ∧
    Worker.NoEventEver (Worker.clear s) k ∧
    ((QtWorker.clear sq).queue = [] ∧
      (QtWorker.clear sq).executeTasks = sq.executeTasks ∧
      (QtWorker.clear sq).phase = sq.phase ∧
      (QtWorker.clear sq).events = sq.events ∧
      (QtWorker.clear sq).execLog = sq.execLog) ∧
    QtWorker.NoEventEver (QtWorker.clear sq) j := by
  refine ⟨⟨rfl, rfl, rfl, rfl, rfl⟩, ?_, ⟨rfl, rfl, rfl, rfl, rfl⟩, ?_⟩
  · refine Worker.noEventEver_of_fresh _ k ⟨?_, ?_⟩
    · exact hw.2 k (List.mem_append.2 (Or.inl (List.mem_append.2 (Or.inl hk))))
    · intro hin
      have hnd : (s.queue.map WorkItem.id ++
          (Worker.phaseIds s.phase ++ s.events.map Worker.Event.eid)).Nodup := by
        have h1 := hw.1
        rwa [Worker.trackedIds, List.append_assoc] at h1
      have hdisj := List.disjoint_of_nodup_append hnd
      have hin' : k ∈ Worker.phaseIds s.phase ++
          s.events.map Worker.Event.eid := hin
      exact hdisj hk hin'
  · refine QtWorker.qt_noEventEver_of_fresh _ j ⟨?_, ?_⟩
    · exact hq.2 j (List.mem_append.2 (Or.inl (List.mem_append.2 (Or.inl hj))))
    · intro hin
      have hnd : (sq.queue.map WorkItem.id ++
          (QtWorker.phaseIds sq.phase ++
            sq.events.map QtWorker.Event.eid)).Nodup := by
        have h1 := hq.1
        rwa [QtWorker.trackedIds, List.append_assoc] at h1
      have hdisj := List.disjoint_of_nodup_append hnd
      have hin' : j ∈ QtWorker.phaseIds sq.phase ++
          sq.events.map QtWorker.Event.eid := hin
      exact hdisj hj hin'

theorem clear_semantics_witness :
    Worker.Wf (Worker.queue_work Worker.init job1 PyVal.none false).2 ∧
    0 ∈ (Worker.queue_work Worker.init job1 PyVal.none false).2.queue.map
      WorkItem.id ∧
    QtWorker.Wf (QtWorker.queue_work QtWorker.init job1 PyVal.none false).2 ∧
    0 ∈ (QtWorker.queue_work QtWorker.init job1 PyVal.none false).2.queue.map
      WorkItem.id ∧
    (Worker.NoEventEver
      (Worker.clear (Worker.queue_work Worker.init job1 PyVal.none false).2)
      0 ∧
     QtWorker.NoEventEver
      (QtWorker.clear
        (QtWorker.queue_work QtWorker.init job1 PyVal.none false).2) 0) :=
  ⟨⟨by decide, by decide⟩, by decide, ⟨by decide, by decide⟩, by decide,
    ⟨(clear_semantics (Worker.queue_work Worker.init job1 PyVal.none false).2
      0 ⟨by decide, by decide⟩ (by decide)
      (QtWorker.queue_work QtWorker.init job1 PyVal.none false).2
      0 ⟨by decide, by decide⟩ (by decide)).2.1,
     (clear_semantics (Worker.queue_work Worker.init job1 PyVal.none false).2
      0 ⟨by decide, by decide⟩ (by decide)
      (QtWorker.queue_work QtWorker.init job1 PyVal.none false).2
      0 ⟨by decide, by decide⟩ (by decide)).2.2.2⟩⟩

end ArtellaWorker
